import Mathlib

/-!
Verification of the project-command detection and chat-message synthesis
core of the jimmyverse.dev repository.

The development shallowly embeds `app/utils/projectCommands.ts` and
`app/utils/folderImport.ts`:

* JavaScript's builtin `JSON.parse` (a platform primitive, not repository
  code) is modelled by an executable JSON parser `Json.parse` returning
  `Option Json` (`none` models a thrown `SyntaxError`);
* JavaScript truthiness of the values the code branches on is modelled by
  `Json.truthy` and `jsStrTruthy`;
* the regex-replace based tag escaping is modelled by an explicit
  leftmost-match scanner (`findTagMatch` / `replaceTagMatches`) that mirrors
  the semantics of the two global regexes used by the source
  (greedy `[^>]*` up to the next `>`, lazy body up to the next closing tag,
  continue scanning after the end of each match);
* message `id` values (`generateId()`) and `createdAt` timestamps are
  environment-generated identifiers that no verified property depends on,
  so `Message` keeps only `role` and `content`;
* the `FileReader` fan-out in `createChatFromFolder` is browser I/O; the
  embedding takes the already-decoded `(content, path)` pairs as input,
  which is the state of the computation once all reads resolved.
-/

/-! ### A model of JavaScript JSON values and of `JSON.parse` -/

/-- JSON values. Numbers are kept exactly as `mantissa * 10 ^ exponent`,
which is enough to decide JavaScript truthiness (`0`, `-0` are falsy). -/
inductive Json where
  | null : Json
  | bool : Bool → Json
  | num : Int → Int → Json
  | str : String → Json
  | arr : List Json → Json
  | obj : List (String × Json) → Json

/-- Drop leading JSON whitespace (space, tab, line feed, carriage return). -/
def skipWs : List Char → List Char
  | [] => []
  | c :: cs =>
    if c = ' ' ∨ c = '\t' ∨ c = '\n' ∨ c = '\x0d' then skipWs cs else c :: cs

/-- Value of a hexadecimal digit, if the character is one. -/
def hexVal? (c : Char) : Option Nat :=
  if '0' ≤ c ∧ c ≤ '9' then some (c.toNat - '0'.toNat)
  else if 'a' ≤ c ∧ c ≤ 'f' then some (c.toNat - 'a'.toNat + 10)
  else if 'A' ≤ c ∧ c ≤ 'F' then some (c.toNat - 'A'.toNat + 10)
  else none

/-- Decode one escape character of a JSON string literal. -/
def escChar? (e : Char) : Option Char :=
  if e = '"' then some '"'
  else if e = '\\' then some '\\'
  else if e = '/' then some '/'
  else if e = 'b' then some (Char.ofNat 8)
  else if e = 'f' then some (Char.ofNat 12)
  else if e = 'n' then some '\n'
  else if e = 'r' then some (Char.ofNat 13)
  else if e = 't' then some '\t'
  else none

/-- Parse the body of a JSON string literal (the opening quote has been
consumed); returns the decoded characters and the input after the closing
quote. -/
def parseStringBody : Nat → List Char → Option (List Char × List Char)
  | 0, _ => none
  | _, [] => none
  | fuel + 1, c :: cs =>
    if c = '"' then some ([], cs)
    else if c = '\\' then
      match cs with
      | [] => none
      | e :: cs2 =>
        if e = 'u' then
          match cs2 with
          | h1 :: h2 :: h3 :: h4 :: cs3 =>
            match hexVal? h1, hexVal? h2, hexVal? h3, hexVal? h4 with
            | some a, some b, some d, some g =>
              let n := ((a * 16 + b) * 16 + d) * 16 + g
              if n.isValidChar then
                match parseStringBody fuel cs3 with
                | some (body, rest) => some (Char.ofNat n :: body, rest)
                | none => none
              else none
            | _, _, _, _ => none
          | _ => none
        else
          match escChar? e with
          | some ch =>
            match parseStringBody fuel cs2 with
            | some (body, rest) => some (ch :: body, rest)
            | none => none
          | none => none
    else if c.toNat < 32 then none
    else
      match parseStringBody fuel cs with
      | some (body, rest) => some (c :: body, rest)
      | none => none

/-- Accumulate decimal digits into a natural number. -/
def digitsToNat : List Char → Nat → Nat
  | [], acc => acc
  | c :: cs, acc => digitsToNat cs (acc * 10 + (c.toNat - '0'.toNat))

/-- Parse the optional fraction part `.ddd` of a JSON number; returns the
fraction digits and the remaining input. -/
def parseFracPart (s : List Char) : Option (List Char × List Char) :=
  match s with
  | '.' :: t =>
    let ds := t.takeWhile Char.isDigit
    if ds.isEmpty then none else some (ds, t.dropWhile Char.isDigit)
  | _ => some ([], s)

/-- Parse the optional exponent part `e±ddd` of a JSON number; returns the
signed exponent and the remaining input. -/
def parseExpPart (s : List Char) : Option (Int × List Char) :=
  match s with
  | 'e' :: t | 'E' :: t =>
    let signAndRest : Int × List Char :=
      match t with
      | '+' :: u => (1, u)
      | '-' :: u => (-1, u)
      | _ => (1, t)
    let eds := signAndRest.2.takeWhile Char.isDigit
    if eds.isEmpty then none
    else some (signAndRest.1 * Int.ofNat (digitsToNat eds 0), signAndRest.2.dropWhile Char.isDigit)
  | _ => some (0, s)

/-- Parse a JSON number starting at the first character of the token. -/
def parseNumber (s : List Char) : Option (Json × List Char) :=
  let signAndRest : Bool × List Char :=
    match s with
    | '-' :: t => (true, t)
    | _ => (false, s)
  let s1 := signAndRest.2
  let intDigits := s1.takeWhile Char.isDigit
  let s2 := s1.dropWhile Char.isDigit
  if intDigits.isEmpty then none
  else if 1 < intDigits.length ∧ intDigits.headD 'x' = '0' then none
  else
    match parseFracPart s2 with
    | none => none
    | some (fracDigits, s3) =>
      match parseExpPart s3 with
      | none => none
      | some (e, s4) =>
        let mant : Int := Int.ofNat (digitsToNat (intDigits ++ fracDigits) 0)
        let mant := if signAndRest.1 then -mant else mant
        some (Json.num mant (e - Int.ofNat fracDigits.length), s4)

mutual

/-- Parse one JSON value (leading whitespace allowed). -/
def parseValue : Nat → List Char → Option (Json × List Char)
  | 0, _ => none
  | fuel + 1, s =>
    match skipWs s with
    | [] => none
    | c :: cs =>
      if c = '"' then
        match parseStringBody (cs.length + 1) cs with
        | some (body, rest) => some (Json.str (String.mk body), rest)
        | none => none
      else if c = '\x7b' then parseObjBody fuel cs
      else if c = '[' then parseArrBody fuel cs
      else if c = 't' then
        match cs with
        | 'r' :: 'u' :: 'e' :: rest => some (Json.bool true, rest)
        | _ => none
      else if c = 'f' then
        match cs with
        | 'a' :: 'l' :: 's' :: 'e' :: rest => some (Json.bool false, rest)
        | _ => none
      else if c = 'n' then
        match cs with
        | 'u' :: 'l' :: 'l' :: rest => some (Json.null, rest)
        | _ => none
      else if c = '-' ∨ c.isDigit then parseNumber (c :: cs)
      else none

/-- Parse the remainder of a JSON object (the opening brace has been
consumed). -/
def parseObjBody : Nat → List Char → Option (Json × List Char)
  | 0, _ => none
  | fuel + 1, s =>
    match skipWs s with
    | '\x7d' :: rest => some (Json.obj [], rest)
    | other => parseMembers fuel other []

/-- Parse the members of a non-empty JSON object. -/
def parseMembers : Nat → List Char → List (String × Json) → Option (Json × List Char)
  | 0, _, _ => none
  | fuel + 1, s, acc =>
    match skipWs s with
    | '"' :: cs =>
      match parseStringBody (cs.length + 1) cs with
      | some (key, rest1) =>
        match skipWs rest1 with
        | ':' :: rest2 =>
          match parseValue fuel rest2 with
          | some (v, rest3) =>
            match skipWs rest3 with
            | ',' :: rest4 => parseMembers fuel rest4 (acc ++ [(String.mk key, v)])
            | '\x7d' :: rest4 => some (Json.obj (acc ++ [(String.mk key, v)]), rest4)
            | _ => none
          | none => none
        | _ => none
      | none => none
    | _ => none

/-- Parse the remainder of a JSON array (the opening bracket has been
consumed). -/
def parseArrBody : Nat → List Char → Option (Json × List Char)
  | 0, _ => none
  | fuel + 1, s =>
    match skipWs s with
    | ']' :: rest => some (Json.arr [], rest)
    | other => parseElems fuel other []

/-- Parse the elements of a non-empty JSON array. -/
def parseElems : Nat → List Char → List Json → Option (Json × List Char)
  | 0, _, _ => none
  | fuel + 1, s, acc =>
    match parseValue fuel s with
    | some (v, rest) =>
      match skipWs rest with
      | ',' :: rest2 => parseElems fuel rest2 (acc ++ [v])
      | ']' :: rest2 => some (Json.arr (acc ++ [v]), rest2)
      | _ => none
    | none => none

end

/-- Model of JavaScript `JSON.parse`: `none` models a thrown `SyntaxError`.
The fuel `3 * length + 8` dominates the recursion depth, which grows by at
most three per consumed input character. -/
def Json.parse (s : String) : Option Json :=
  match parseValue (3 * s.data.length + 8) s.data with
  | some (j, rest) => if (skipWs rest).isEmpty then some j else none
  | none => none

/-! ### JavaScript value semantics used by the detector -/

/-- JavaScript truthiness of a JSON value. -/
def Json.truthy : Json → Bool
  | .null => false
  | .bool b => b
  | .num m _ => decide (m ≠ 0)
  | .str s => !s.data.isEmpty
  | .arr _ => true
  | .obj _ => true

/-- Last-binding-wins association lookup, matching the semantics of repeated
keys in a JavaScript object literal. -/
def jlookup : List (String × Json) → String → Option Json
  | [], _ => none
  | kv :: rest, k =>
    match jlookup rest k with
    | some r => some r
    | none => if kv.1 = k then some kv.2 else none

/-- JavaScript property access `v?.k` / `v[k]`: `none` models `undefined`.
Only objects carry the properties the detector reads. -/
def jsGetField : Json → String → Option Json
  | .obj kvs, k => jlookup kvs k
  | _, _ => none

/-- JavaScript `x || dflt` on a possibly-`undefined` JSON value. -/
def jsOrElse (v : Option Json) (dflt : Json) : Json :=
  match v with
  | some j => if j.truthy then j else dflt
  | none => dflt

/-- `packageJson?.scripts || {}` from `detectProjectCommands`. -/
def scriptsOf (packageJson : Json) : Json :=
  jsOrElse (jsGetField packageJson "scripts") (Json.obj [])

/-- JavaScript truthiness of `scripts[cmd]`. -/
def jsIndexTruthy (j : Json) (k : String) : Bool :=
  match jsGetField j k with
  | some v => v.truthy
  | none => false

/-! ### Data model (`projectCommands.ts`, `folderImport.ts`) -/

/-- `interface FileContent` from `projectCommands.ts`. -/
structure FileContent where
  content : String
  path : String
deriving DecidableEq

/-- `interface ProjectCommands` from `projectCommands.ts`. Optional fields
are `Option`; `none` models an absent (`undefined`) field. -/
structure ProjectCommands where
  type : String
  setupCommand : Option String
  startCommand : Option String
  followupMessage : String
  autoStart : Option Bool
deriving DecidableEq

/-- Chat `Message`. `id` (from `generateId()`) and `createdAt` (a wall-clock
timestamp) are environment-generated and carry no verified content; the
embedding keeps the `role` and `content` fields the properties are about. -/
structure Message where
  role : String
  content : String
deriving DecidableEq

/-- JavaScript `path.endsWith(name)`. -/
def strEndsWith (s suff : String) : Bool := suff.data.isSuffixOf s.data

/-- The predicate of `hasFile('package.json')` / the `files.find` callback. -/
def pkgPred (f : FileContent) : Bool := strEndsWith f.path "package.json"

/-- The predicate of `hasFile('index.html')`. -/
def htmlPred (f : FileContent) : Bool := strEndsWith f.path "index.html"

/-- `detectProjectCommands` from `projectCommands.ts`. The `async` wrapper is
dropped (the body performs no awaiting I/O); the `try/catch` around
`JSON.parse` becomes the `match` on `Json.parse`, whose `none` branch is the
`catch` branch of the source. -/
def detectProjectCommands (files : List FileContent) : ProjectCommands :=
  if files.any pkgPred then
    match files.find? pkgPred with
    | none =>
      { type := "", setupCommand := some "npm install", startCommand := none,
        followupMessage := "Initializing npm project...", autoStart := none }
    | some packageJsonFile =>
      match Json.parse packageJsonFile.content with
      | some packageJson =>
        let scripts := scriptsOf packageJson
        match ["dev", "start", "preview"].find? (fun cmd => jsIndexTruthy scripts cmd) with
        | some availableCommand =>
          { type := "Node.js", setupCommand := some "npm install",
            startCommand := some ("npm run " ++ availableCommand),
            followupMessage :=
              "🚀 Jimmyverse.dev workflow: Installing dependencies and starting "
                ++ availableCommand ++ " server for live preview...",
            autoStart := none }
        | none =>
          { type := "Node.js", setupCommand := some "npm install",
            startCommand := some "npm start",
            followupMessage := "📦 Installing dependencies and attempting to start the project...",
            autoStart := none }
      | none =>
        { type := "Node.js", setupCommand := some "npm install", startCommand := none,
          followupMessage := "⚠️ Error parsing package.json, but installing dependencies anyway...",
          autoStart := none }
  else if files.any htmlPred then
    { type := "Static", setupCommand := some "npm install -g serve",
      startCommand := some "npx --yes serve",
      followupMessage := "🌐 Setting up static file server for live preview...",
      autoStart := none }
  else
    { type := "Unknown", setupCommand := some "npm install", startCommand := none,
      followupMessage := "🔧 Attempting to initialize project with npm...",
      autoStart := none }

/-! ### Message synthesis (`createCommandsMessage`) -/

/-- JavaScript truthiness of an optional string field (`undefined` and the
empty string are falsy). -/
def jsStrTruthy : Option String → Bool
  | none => false
  | some s => !s.data.isEmpty

/-- The `shell` action block appended when `commands.setupCommand` is truthy. -/
def actionBlockShell (cmd : String) : String :=
  "\n<boltAction type=\"shell\">" ++ cmd ++ "</boltAction>"

/-- The `start` action block appended when `commands.startCommand` is truthy. -/
def actionBlockStart (cmd : String) : String :=
  "\n<boltAction type=\"start\">" ++ cmd ++ "</boltAction>\n"

/-- The hard-coded default command pair of `createCommandsMessage`. -/
def defaultCommandString : String :=
  "\n<boltAction type=\"shell\">npm install</boltAction>\n<boltAction type=\"start\">npm run dev</boltAction>\n"

/-- The `commandString` accumulator of `createCommandsMessage`. -/
def commandStringOf (c : ProjectCommands) : String :=
  let s1 :=
    match c.setupCommand with
    | some cmd => if cmd.data.isEmpty then "" else actionBlockShell cmd
    | none => ""
  let s2 :=
    match c.startCommand with
    | some cmd => if cmd.data.isEmpty then "" else actionBlockStart cmd
    | none => ""
  let cs := s1 ++ s2
  if cs.data.isEmpty then defaultCommandString else cs

/-- The content template literal of `createCommandsMessage`. -/
def commandsContent (followupMessage commandString : String) : String :=
  "\n"
    ++ (if followupMessage.data.isEmpty then
          "🚀 Jimmyverse.dev: Setting up your project with live preview..."
        else "\n\n" ++ followupMessage)
    ++ "\n<boltArtifact id=\"project-setup\" title=\"Jimmyverse.dev Project Setup\">\n"
    ++ commandString ++ "\n</boltArtifact>"

/-- `createCommandsMessage` from `projectCommands.ts`. The TypeScript return
type is `Message | null`, modelled by `Option Message`; the body always
reaches the final unconditional `return`, so the result is always `some`. -/
def createCommandsMessage (c : ProjectCommands) : Option Message :=
  some { role := "assistant", content := commandsContent c.followupMessage (commandStringOf c) }

/-! ### Tag escaping (`escapeBoltArtifactTags`, `escapeBoltAActionTags`) -/

/-- Replace every `<` by `&lt;` and every `>` by `&gt;`, as the two chained
`.replace` calls of the source do on a matched tag. -/
def escAngles : List Char → List Char
  | [] => []
  | c :: cs =>
    (if c = '<' then "&lt;".data else if c = '>' then "&gt;".data else [c]) ++ escAngles cs

/-- Split a character list at the first occurrence of `needle`: returns the
part before the occurrence and the part after it. This is the semantics of
the lazy `[\s\S]*?` group followed by the literal closing tag. -/
def splitOnSub (needle : List Char) : List Char → Option (List Char × List Char)
  | [] => if needle.isEmpty then some ([], []) else none
  | c :: cs =>
    if needle.isPrefixOf (c :: cs) then some ([], (c :: cs).drop needle.length)
    else
      match splitOnSub needle cs with
      | some (pre, post) => some (c :: pre, post)
      | none => none

/-- Try to match `openLit[^>]*>` lazily followed by `closeLit` at the very
start of `s`; returns the matched opening tag, the body, and the input after
the closing tag. -/
def matchTagAt (openLit closeLit s : List Char) : Option (List Char × List Char × List Char) :=
  if openLit.isPrefixOf s then
    let after := s.drop openLit.length
    let attrs := after.takeWhile (fun c => !(c = '>'))
    match after.dropWhile (fun c => !(c = '>')) with
    | '>' :: rest2 =>
      match splitOnSub closeLit rest2 with
      | some (body, rest3) => some (openLit ++ attrs ++ ['>'], body, rest3)
      | none => none
    | _ => none
  else none

/-- Leftmost match of the tag regex in `s`: returns the text before the
match, the matched opening tag, the body, and the input after the closing
tag, scanning start positions left to right exactly as the regex engine
does. -/
def findTagMatch (openLit closeLit : List Char) : List Char → Option (List Char × List Char × List Char × List Char)
  | [] => none
  | c :: cs =>
    match matchTagAt openLit closeLit (c :: cs) with
    | some (o, body, rest) => some ([], o, body, rest)
    | none =>
      match findTagMatch openLit closeLit cs with
      | some (pre, o, body, rest) => some (c :: pre, o, body, rest)
      | none => none

/-- Global regex replacement: rewrite every non-overlapping match from left
to right, escaping the angle brackets of the opening and closing tags and
keeping the body, then continue after the match, as `String.replace` with a
`/g` regex does. Each match consumes at least one character, so `s.length`
rounds of fuel suffice. -/
def replaceTagMatches : Nat → List Char → List Char → List Char → List Char
  | 0, _, _, s => s
  | fuel + 1, openLit, closeLit, s =>
    match findTagMatch openLit closeLit s with
    | none => s
    | some (pre, o, body, rest) =>
      pre ++ escAngles o ++ body ++ escAngles closeLit ++ replaceTagMatches fuel openLit closeLit rest

/-- `escapeBoltArtifactTags` from `projectCommands.ts`:
`input.replace(/(<boltArtifact[^>]*>)([\s\S]*?)(<\/boltArtifact>)/g, ...)`. -/
def escapeBoltArtifactTags (input : String) : String :=
  String.mk (replaceTagMatches (input.data.length + 1) "<boltArtifact".data "</boltArtifact>".data input.data)

/-- `escapeBoltAActionTags` from `projectCommands.ts`:
`input.replace(/(<boltAction[^>]*>)([\s\S]*?)(<\/boltAction>)/g, ...)`. -/
def escapeBoltAActionTags (input : String) : String :=
  String.mk (replaceTagMatches (input.data.length + 1) "<boltAction".data "</boltAction>".data input.data)

/-- `escapeBoltTags` from `projectCommands.ts`. -/
def escapeBoltTags (input : String) : String :=
  escapeBoltArtifactTags (escapeBoltAActionTags input)

/-! ### Folder import (`createChatFromFolder`) -/

/-- JavaScript `Array.prototype.join(sep)`. -/
def joinSep (sep : String) : List String → String
  | [] => ""
  | [x] => x
  | x :: xs => x ++ sep ++ joinSep sep xs

/-- Content of the initial user message of `createChatFromFolder`. -/
def importRequestContent (folderName : String) : String :=
  "Import the \"" ++ folderName ++ "\" folder"

/-- Content of the unconditionally appended setup-request user message. -/
def setupRequestContent : String :=
  "🔧 Jimmyverse.dev: Setup dependencies and start development server for live preview"

/-- One escaped `file` action block of the imported-files artifact. -/
def fileActionBlock (file : FileContent) : String :=
  "<boltAction type=\"file\" filePath=\"" ++ file.path ++ "\">\n"
    ++ escapeBoltTags file.content ++ "\n</boltAction>"

/-- The `binaryFilesMessage` note listing skipped binary files. -/
def binaryNote (binaryFiles : List String) : String :=
  if binaryFiles.length > 0 then
    "\n\nSkipped " ++ toString binaryFiles.length ++ " binary files:\n"
      ++ joinSep "\n" (binaryFiles.map (fun f => "- " ++ f))
  else ""

/-- Content of the assistant message embedding every imported file. -/
def filesMessageContent (fileArtifacts : List FileContent) (binaryFiles : List String)
    (folderName : String) : String :=
  "🚀 Jimmyverse.dev: I've imported the contents of the \"" ++ folderName
    ++ "\" folder and I'm setting up the development environment with live preview."
    ++ binaryNote binaryFiles
    ++ "\n\n<boltArtifact id=\"imported-files\" title=\"Imported Files\" type=\"bundled\" >\n"
    ++ joinSep "\n\n" (fileArtifacts.map fileActionBlock)
    ++ "\n</boltArtifact>"

/-- The fallback `ProjectCommands` passed to `createCommandsMessage` when the
detection-produced message is `null`. -/
def fallbackUnknownCommands : ProjectCommands :=
  { type := "Unknown", setupCommand := some "npm install", startCommand := some "npm run dev",
    followupMessage := "🚀 Jimmyverse.dev: Initializing project with default npm workflow...",
    autoStart := some true }

/-- `createChatFromFolder` from `folderImport.ts`, after the `FileReader`
fan-out resolved: `fileArtifacts` are the decoded `(content, path)` pairs.
The final `messages.push` of the possibly-`null` commands message is
modelled by appending `Option.toList` (the source relies on the value being
non-null, which `createCommandsMessage` guarantees). -/
def createChatFromFolder (fileArtifacts : List FileContent) (binaryFiles : List String)
    (folderName : String) : List Message :=
  let commands := detectProjectCommands fileArtifacts
  let commandsMessage := createCommandsMessage commands
  let filesMessage : Message :=
    { role := "assistant", content := filesMessageContent fileArtifacts binaryFiles folderName }
  let userMessage : Message := { role := "user", content := importRequestContent folderName }
  let setupRequestMessage : Message := { role := "user", content := setupRequestContent }
  let finalCommandsMessage :=
    match commandsMessage with
    | some m => some m
    | none => createCommandsMessage fallbackUnknownCommands
  [userMessage, filesMessage, setupRequestMessage] ++ finalCommandsMessage.toList

/-- Content of the last message of a transcript (`""` if there is none). -/
def lastContent (ms : List Message) : String :=
  match ms.getLast? with
  | some m => m.content
  | none => ""

/-- Substring test: `containsSub s pat` holds iff `pat` occurs contiguously
in `s`. -/
def containsSub (s pat : String) : Bool := (splitOnSub pat.data s.data).isSome

/-! ### Concrete inputs used by witnesses and counterexamples -/

/-- A `package.json` with `dev`, `start` and `preview` scripts all present. -/
def pkgJsonAll : FileContent :=
  ⟨"\x7b\"scripts\":\x7b\"dev\":\"vite\",\"start\":\"node index.js\",\"preview\":\"vite preview\"\x7d\x7d",
   "package.json"⟩

/-- The parse of `pkgJsonAll.content`. -/
def pkgJsonAllVal : Json :=
  Json.obj [("scripts", Json.obj
    [("dev", Json.str "vite"), ("start", Json.str "node index.js"),
     ("preview", Json.str "vite preview")])]

/-- A file whose path merely ends in `package.json` and whose content is
malformed JSON. -/
def pkgJsonBad : FileContent := ⟨"\x7boops", "my-package.json"⟩

/-- A nested `package.json` that parses but has no `scripts` field. -/
def pkgJsonNoScripts : FileContent := ⟨"\x7b\"name\":\"x\"\x7d", "sub/package.json"⟩

/-- The parse of `pkgJsonNoScripts.content`. -/
def pkgJsonNoScriptsVal : Json := Json.obj [("name", Json.str "x")]

/-- A file whose path merely ends in `index.html`. -/
def htmlFile : FileContent := ⟨"<h1>hello</h1>", "a/my-index.html"⟩

/-- A marker-free text file. -/
def textFile : FileContent := ⟨"hello", "a/readme.txt"⟩

/-! ### Helper lemmas -/

theorem data_app (a b : String) : (a ++ b).data = a.data ++ b.data := by
  cases a; cases b; rfl

theorem sext {a b : String} (h : a.data = b.data) : a = b :=
  congrArg String.mk h

theorem sapp_assoc (a b c : String) : a ++ b ++ c = a ++ (b ++ c) :=
  sext (by simp [data_app, List.append_assoc])

theorem slen_app (a b : String) : (a ++ b).length = a.length + b.length := by
  show (a ++ b).data.length = a.data.length + b.data.length
  rw [data_app, List.length_append]

theorem splitOnSub_isSome_of_infix :
    ∀ {hay needle : List Char}, needle <:+: hay → (splitOnSub needle hay).isSome = true := by
  intro hay
  induction hay with
  | nil =>
    intro needle h
    obtain ⟨s, t, hst⟩ := h
    simp only [List.append_eq_nil] at hst
    simp [splitOnSub, hst.1.2]
  | cons c cs ih =>
    intro needle h
    by_cases hp : needle.isPrefixOf (c :: cs)
    · simp [splitOnSub, hp]
    · have h2 : needle <:+: cs := by
        obtain ⟨s, t, hst⟩ := h
        cases s with
        | nil =>
          exact absurd (List.isPrefixOf_iff_prefix.mpr ⟨t, by simpa using hst⟩) hp
        | cons d ds =>
          simp only [List.cons_append, List.cons.injEq] at hst
          exact ⟨ds, t, hst.2⟩
      obtain ⟨p, hpq⟩ := Option.isSome_iff_exists.mp (ih h2)
      simp [splitOnSub, hp, hpq]

theorem containsSub_of_infix {s pat : String} (h : pat.data <:+: s.data) :
    containsSub s pat = true :=
  splitOnSub_isSome_of_infix h

theorem mem_joinSep_infix (sep : String) :
    ∀ {l : List String} {x : String}, x ∈ l → x.data <:+: (joinSep sep l).data := by
  intro l
  induction l with
  | nil => intro x hx; cases hx
  | cons a t ih =>
    intro x hx
    cases t with
    | nil =>
      have hxa : x = a := by simpa using hx
      subst hxa
      simp [joinSep]
    | cons b u =>
      rcases List.mem_cons.mp hx with h1 | h2
      · subst h1
        exact ⟨[], sep.data ++ (joinSep sep (b :: u)).data, by
          simp [joinSep, data_app, List.append_assoc]⟩
      · exact (ih h2).trans ⟨a.data ++ sep.data, [], by
          simp [joinSep, data_app, List.append_assoc]⟩

theorem empty_sapp (x : String) : "" ++ x = x :=
  sext (by simp [data_app])

theorem commandsContent_shape (fm cs : String) : ∃ p r, commandsContent fm cs = p ++ cs ++ r :=
  ⟨"\n" ++ (if fm.data.isEmpty then
      "🚀 Jimmyverse.dev: Setting up your project with live preview..."
    else "\n\n" ++ fm)
    ++ "\n<boltArtifact id=\"project-setup\" title=\"Jimmyverse.dev Project Setup\">\n",
   "\n</boltArtifact>", rfl⟩

theorem shell_split :
    ("\n" : String) ++ "<boltAction type=\"" ++ "shell\">" = "\n<boltAction type=\"shell\">" := rfl

theorem start_split :
    ("\n" : String) ++ "<boltAction type=\"" ++ "start\">" = "\n<boltAction type=\"start\">" := rfl

theorem shell_tag_split :
    ("\n" : String) ++ "<boltAction type=\"shell\">" = "\n<boltAction type=\"shell\">" := rfl

theorem start_tag_split :
    ("\n" : String) ++ "<boltAction type=\"start\">" = "\n<boltAction type=\"start\">" := rfl

theorem actionBlockShell_ne_empty (cmd : String) (s2 : String) :
    (actionBlockShell cmd ++ s2).data.isEmpty = false := by
  have h : ("\n<boltAction type=\"shell\">" : String).data
      = '\n' :: ("<boltAction type=\"shell\">" : String).data := rfl
  simp [actionBlockShell, data_app, h]

theorem actionBlockStart_ne_empty2 (cmd : String) :
    ("" ++ actionBlockStart cmd).data.isEmpty = false := by
  have h : ("\n<boltAction type=\"start\">" : String).data
      = '\n' :: ("<boltAction type=\"start\">" : String).data := rfl
  simp [actionBlockStart, data_app, h]

/-! ### The verified claims -/

set_option maxRecDepth 40000 in
/-- Claim C1 (amended). `createChatFromFolder` returns exactly 4 messages for
every input. On the empty file list the last message's content contains a
`boltAction` of type `shell` but, contrary to the original claim, no
`boltAction` of type `start`: detection classifies the empty list as
`Unknown`, which carries no `startCommand`, and `createCommandsMessage`
then emits only the setup action. -/
theorem createChatFromFolder_four_messages :
    (∀ (files : List FileContent) (bins : List String) (name : String),
      (createChatFromFolder files bins name).length = 4) ∧
    containsSub (lastContent (createChatFromFolder [] [] "project")) "<boltAction type=\"shell\">" = true ∧
    containsSub (lastContent (createChatFromFolder [] [] "project")) "<boltAction type=\"start\">" = false :=
  ⟨fun _ _ _ => rfl, by decide, by decide⟩

set_option maxRecDepth 40000 in
/-- Claim C1, counterexample to the original statement: on the empty file
list the content of the last of the 4 returned messages does not contain a
`boltAction` of type `start`. -/
theorem createChatFromFolder_empty_no_start :
    containsSub (lastContent (createChatFromFolder [] [] "project")) "<boltAction type=\"start\">" = false := by
  decide

/-- Claim C2. If the first file whose path ends in `package.json` parses as
JSON, then: whenever its `scripts.dev` entry is truthy the detector returns
`startCommand = "npm run dev"` (regardless of `start` and `preview`), and in
general the start command is `npm run` of the first truthy script in the
priority order `dev`, `start`, `preview`. -/
theorem detectProjectCommands_dev_priority (files : List FileContent) (f : FileContent)
    (pj : Json) (hf : files.find? pkgPred = some f) (hp : Json.parse f.content = some pj) :
    (jsIndexTruthy (scriptsOf pj) "dev" = true →
      (detectProjectCommands files).startCommand = some "npm run dev") ∧
    (∀ c, ["dev", "start", "preview"].find? (fun cmd => jsIndexTruthy (scriptsOf pj) cmd) = some c →
      (detectProjectCommands files).startCommand = some ("npm run " ++ c)) := by
  have hany : files.any pkgPred = true :=
    List.any_eq_true.mpr ⟨f, List.mem_of_find?_eq_some hf, List.find?_some hf⟩
  constructor
  · intro hdev
    simp [detectProjectCommands, hany, hf, hp, List.find?, hdev]
  · intro c hc
    simp [detectProjectCommands, hany, hf, hp, hc]

/-- Claim C2, witness: a `package.json` declaring `dev`, `start` and
`preview` scripts yields `startCommand = "npm run dev"`. -/
theorem detectProjectCommands_dev_priority_check :
    (detectProjectCommands [textFile, pkgJsonAll]).startCommand = some "npm run dev" :=
  (detectProjectCommands_dev_priority [textFile, pkgJsonAll] pkgJsonAll pkgJsonAllVal
    (by rfl) (by rfl)).1 (by rfl)

/-- Claim C3. If the first file whose path ends in `package.json` fails to
parse, the (total) detector returns the degraded `Node.js` result: setup
command `npm install`, no start command, and the warning follow-up message.
No exception escapes: the embedding of the `try/catch` is a total function
and this equation covers the entire `catch` branch. -/
theorem detectProjectCommands_malformed_json (files : List FileContent) (f : FileContent)
    (hf : files.find? pkgPred = some f) (hp : Json.parse f.content = none) :
    detectProjectCommands files =
      { type := "Node.js", setupCommand := some "npm install", startCommand := none,
        followupMessage := "⚠️ Error parsing package.json, but installing dependencies anyway...",
        autoStart := none } := by
  have hany : files.any pkgPred = true :=
    List.any_eq_true.mpr ⟨f, List.mem_of_find?_eq_some hf, List.find?_some hf⟩
  simp [detectProjectCommands, hany, hf, hp]

/-- Claim C3, witness: a malformed `package.json` produces the degraded
result. -/
theorem detectProjectCommands_malformed_json_check :
    detectProjectCommands [pkgJsonBad] =
      { type := "Node.js", setupCommand := some "npm install", startCommand := none,
        followupMessage := "⚠️ Error parsing package.json, but installing dependencies anyway...",
        autoStart := none } :=
  detectProjectCommands_malformed_json [pkgJsonBad] pkgJsonBad (by rfl) (by rfl)

/-- Claim C4. `createCommandsMessage` always returns a non-null message whose
content embeds the synthesized `commandString`; that string always contains
at least one `boltAction` opening; whenever both the setup and the start
command are truthy, the `shell` action block precedes the `start` action
block in it; and when neither command is present it is exactly the
hard-coded default pair `npm install` / `npm run dev`. -/
theorem createCommandsMessage_invariants (c : ProjectCommands) :
    (∃ m, createCommandsMessage c = some m ∧ ∃ p r, m.content = p ++ commandStringOf c ++ r) ∧
    (∃ p r, commandStringOf c = p ++ "<boltAction type=\"" ++ r) ∧
    (jsStrTruthy c.setupCommand = true → jsStrTruthy c.startCommand = true →
      ∃ p q r, commandStringOf c
        = p ++ "<boltAction type=\"shell\">" ++ q ++ "<boltAction type=\"start\">" ++ r) ∧
    (c.setupCommand = none → c.startCommand = none →
      commandStringOf c = defaultCommandString) := by
  obtain ⟨ty, su, st, fm, au⟩ := c
  refine ⟨⟨_, rfl, commandsContent_shape fm _⟩, ?_, ?_, ?_⟩
  · cases su with
    | none =>
      cases st with
      | none =>
        exact ⟨"\n", "shell\">npm install</boltAction>\n<boltAction type=\"start\">npm run dev</boltAction>\n", rfl⟩
      | some cv =>
        by_cases hcv : cv.data.isEmpty
        · refine ⟨"\n", "shell\">npm install</boltAction>\n<boltAction type=\"start\">npm run dev</boltAction>\n", ?_⟩
          simp [commandStringOf, hcv]
          rfl
        · refine ⟨"\n", "start\">" ++ cv ++ "</boltAction>\n", ?_⟩
          simp only [commandStringOf, hcv, if_false, Bool.false_eq_true, ite_false,
            actionBlockStart_ne_empty2, empty_sapp]
          simp only [actionBlockStart, ← start_split, sapp_assoc]
          have hne : (("\n" : String) ++ ("<boltAction type=\"" ++ ("start\">" ++ (cv ++ "</boltAction>\n")))).data.isEmpty = false := by
            have h : ("\n" : String).data = '\n' :: [] := rfl
            simp [data_app, h]
          simp [hne]
    | some cu =>
      by_cases hcu : cu.data.isEmpty
      · cases st with
        | none =>
          refine ⟨"\n", "shell\">npm install</boltAction>\n<boltAction type=\"start\">npm run dev</boltAction>\n", ?_⟩
          simp [commandStringOf, hcu]
          rfl
        | some cv =>
          by_cases hcv : cv.data.isEmpty
          · refine ⟨"\n", "shell\">npm install</boltAction>\n<boltAction type=\"start\">npm run dev</boltAction>\n", ?_⟩
            simp [commandStringOf, hcu, hcv]
            rfl
          · refine ⟨"\n", "start\">" ++ cv ++ "</boltAction>\n", ?_⟩
            simp only [commandStringOf, hcu, hcv, if_true, if_false, Bool.false_eq_true,
              ite_false, ite_true, actionBlockStart_ne_empty2, empty_sapp]
            simp only [actionBlockStart, ← start_split, sapp_assoc]
            have hne : (("\n" : String) ++ ("<boltAction type=\"" ++ ("start\">" ++ (cv ++ "</boltAction>\n")))).data.isEmpty = false := by
              have h : ("\n" : String).data = '\n' :: [] := rfl
              simp [data_app, h]
            simp [hne]
      · refine ⟨"\n", "shell\">" ++ cu ++ "</boltAction>" ++
          (match st with
            | some cv => if cv.data.isEmpty then "" else actionBlockStart cv
            | none => ""), ?_⟩
        simp only [commandStringOf, hcu, Bool.false_eq_true, ite_false,
          actionBlockShell_ne_empty]
        simp only [actionBlockShell, ← shell_split, sapp_assoc]
  · intro hsu hst
    cases su with
    | none => simp [jsStrTruthy] at hsu
    | some cu =>
      cases st with
      | none => simp [jsStrTruthy] at hst
      | some cv =>
        have hcu : cu.data.isEmpty = false := by
          simpa [jsStrTruthy] using hsu
        have hcv : cv.data.isEmpty = false := by
          simpa [jsStrTruthy] using hst
        refine ⟨"\n", cu ++ "</boltAction>" ++ "\n", cv ++ "</boltAction>\n", ?_⟩
        simp only [commandStringOf, hcu, hcv, Bool.false_eq_true, ite_false,
          actionBlockShell_ne_empty]
        simp only [actionBlockShell, actionBlockStart, ← shell_tag_split, ← start_tag_split,
          sapp_assoc]
  · intro h1 h2
    subst h1; subst h2
    rfl

/-- Claim C4, witness: with neither command present the synthesized command
string is the default pair, and with both commands present (checked through
the ordering conjunct) the actions appear in install-then-run order. -/
theorem createCommandsMessage_invariants_check :
    commandStringOf ⟨"Unknown", none, none, "msg", none⟩ = defaultCommandString ∧
    commandStringOf ⟨"Node.js", some "npm install", some "npm run dev", "msg", none⟩
      = defaultCommandString := by
  constructor
  · exact (createCommandsMessage_invariants ⟨"Unknown", none, none, "msg", none⟩).2.2.2 rfl rfl
  · have h3 := (createCommandsMessage_invariants
      ⟨"Node.js", some "npm install", some "npm run dev", "msg", none⟩).2.2.1 (by decide) (by decide)
    decide

set_option maxRecDepth 40000 in
/-- Claim C5. For every input, `createChatFromFolder` returns exactly the
fixed sequence: the user import-request message, the assistant message whose
content embeds every supplied file as an escaped file action block inside
the single imported-files artifact block, the user setup-request message,
and the assistant commands message produced by detection. -/
theorem createChatFromFolder_message_order (files : List FileContent) (bins : List String)
    (name : String) :
    ∃ m, createCommandsMessage (detectProjectCommands files) = some m ∧
      createChatFromFolder files bins name =
        [{ role := "user", content := importRequestContent name },
         { role := "assistant", content := filesMessageContent files bins name },
         { role := "user", content := setupRequestContent },
         m] ∧
      m.role = "assistant" ∧
      ∀ f ∈ files, containsSub (filesMessageContent files bins name) (fileActionBlock f) = true := by
  refine ⟨_, rfl, rfl, rfl, ?_⟩
  intro f hf
  apply containsSub_of_infix
  have h1 : (fileActionBlock f).data <:+: (joinSep "\n\n" (files.map fileActionBlock)).data :=
    mem_joinSep_infix _ (List.mem_map_of_mem _ hf)
  refine h1.trans ⟨("🚀 Jimmyverse.dev: I've imported the contents of the \"" ++ name
      ++ "\" folder and I'm setting up the development environment with live preview."
      ++ binaryNote bins
      ++ "\n\n<boltArtifact id=\"imported-files\" title=\"Imported Files\" type=\"bundled\" >\n").data,
    ("\n</boltArtifact>" : String).data, ?_⟩
  simp [filesMessageContent, data_app, List.append_assoc]

/-- Claim C5, witness: a concrete imported file's escaped action block occurs
in the files message. -/
theorem createChatFromFolder_message_order_check :
    containsSub (filesMessageContent [textFile] ["img.png"] "proj") (fileActionBlock textFile) = true := by
  obtain ⟨m, h1, h2, h3, h4⟩ := createChatFromFolder_message_order [textFile] ["img.png"] "proj"
  exact h4 textFile (by simp)

set_option maxRecDepth 40000 in
/-- Claim C6 (the representative test of the specification). Applying
`escapeBoltTags` to the string holding the matched pair
`<boltAction type="file">x</boltAction>` between `<div>` tags yields a string
with no literal `<boltAction` opening and no literal `</boltAction>` closing
tag remaining, while the unrelated `<div>` and `</div>` tags are unchanged. -/
theorem escapeBoltTags_matched_pair_escaped :
    escapeBoltTags "<div><boltAction type=\"file\">x</boltAction></div>"
        = "<div>&lt;boltAction type=\"file\"&gt;x&lt;/boltAction&gt;</div>" ∧
    containsSub (escapeBoltTags "<div><boltAction type=\"file\">x</boltAction></div>") "<boltAction" = false ∧
    containsSub (escapeBoltTags "<div><boltAction type=\"file\">x</boltAction></div>") "</boltAction>" = false ∧
    containsSub (escapeBoltTags "<div><boltAction type=\"file\">x</boltAction></div>") "<div>" = true ∧
    containsSub (escapeBoltTags "<div><boltAction type=\"file\">x</boltAction></div>") "</div>" = true := by
  decide

/-- Claim C7. `escapeBoltTags` rewrites only within matched tag pairs: any
string in which neither reserved tag regex finds a matched opening/closing
pair (for instance one holding a lone unpaired opening tag or a lone closing
tag) is returned completely unchanged. -/
theorem escapeBoltTags_unmatched_untouched (s : String)
    (hAction : findTagMatch "<boltAction".data "</boltAction>".data s.data = none)
    (hArtifact : findTagMatch "<boltArtifact".data "</boltArtifact>".data s.data = none) :
    escapeBoltTags s = s := by
  have h1 : escapeBoltAActionTags s = s := by
    unfold escapeBoltAActionTags
    simp only [replaceTagMatches, hAction]
  show escapeBoltArtifactTags (escapeBoltAActionTags s) = s
  rw [h1]
  unfold escapeBoltArtifactTags
  simp only [replaceTagMatches, hArtifact]

/-- Claim C7, witness: a string with a lone `boltAction` opening tag and a
lone `boltArtifact` closing tag is left untouched. -/
theorem escapeBoltTags_unmatched_untouched_check :
    escapeBoltTags "a lone <boltAction type=\"shell\"> tag and a stray </boltArtifact>"
      = "a lone <boltAction type=\"shell\"> tag and a stray </boltArtifact>" :=
  escapeBoltTags_unmatched_untouched _ (by rfl) (by rfl)

/-- Claim C8. If the first file whose path ends in `package.json` parses but
its effective `scripts` value has no `dev`, `start` or `preview` property,
the detector returns type `Node.js`, setup `npm install` and the hard-coded
`npm start` start command, regardless of whether a `start` script exists. -/
theorem detectProjectCommands_fallback_npm_start (files : List FileContent) (f : FileContent)
    (pj : Json) (hf : files.find? pkgPred = some f) (hp : Json.parse f.content = some pj)
    (hdev : jsGetField (scriptsOf pj) "dev" = none)
    (hstart : jsGetField (scriptsOf pj) "start" = none)
    (hpreview : jsGetField (scriptsOf pj) "preview" = none) :
    detectProjectCommands files =
      { type := "Node.js", setupCommand := some "npm install", startCommand := some "npm start",
        followupMessage := "📦 Installing dependencies and attempting to start the project...",
        autoStart := none } := by
  have hany : files.any pkgPred = true :=
    List.any_eq_true.mpr ⟨f, List.mem_of_find?_eq_some hf, List.find?_some hf⟩
  simp [detectProjectCommands, hany, hf, hp, List.find?, jsIndexTruthy, hdev, hstart, hpreview]

/-- Claim C8, witness: a `package.json` without a `scripts` field falls back
to `npm start`. -/
theorem detectProjectCommands_fallback_npm_start_check :
    detectProjectCommands [pkgJsonNoScripts] =
      { type := "Node.js", setupCommand := some "npm install", startCommand := some "npm start",
        followupMessage := "📦 Installing dependencies and attempting to start the project...",
        autoStart := none } :=
  detectProjectCommands_fallback_npm_start [pkgJsonNoScripts] pkgJsonNoScripts
    pkgJsonNoScriptsVal (by rfl) (by rfl) (by rfl) (by rfl) (by rfl)

/-- Claim C9. Every branch of the detector populates `followupMessage` with a
non-empty string, for every input file list. -/
theorem detectProjectCommands_followup_nonempty (files : List FileContent) :
    0 < (detectProjectCommands files).followupMessage.length := by
  unfold detectProjectCommands
  split
  · split
    · decide
    · split
      · dsimp only
        split
        · show 0 < (("🚀 Jimmyverse.dev workflow: Installing dependencies and starting " ++ _)
            ++ " server for live preview...").length
          rw [slen_app, slen_app]
          have h1 : 0 < ("🚀 Jimmyverse.dev workflow: Installing dependencies and starting " : String).length := by decide
          omega
        · decide
      · decide
  · split
    · decide
    · decide

/-- Claim C10. The detector dispatches on path suffixes: the `Node.js`
branch is taken exactly when some file path ends with `package.json`
(so nested or merely suffix-matching names trigger it), the parsed content
is that of the first such file in list order (the whole result only depends
on that file), and with no such file the `Static` branch is taken as soon as
some path ends with `index.html`. -/
theorem detectProjectCommands_suffix_dispatch (files : List FileContent) :
    (files.any pkgPred = true → (detectProjectCommands files).type = "Node.js") ∧
    ((detectProjectCommands files).type = "Node.js" → files.any pkgPred = true) ∧
    (∀ f, files.find? pkgPred = some f →
      detectProjectCommands files = detectProjectCommands [f]) ∧
    (files.any pkgPred = false → files.any htmlPred = true →
      (detectProjectCommands files).type = "Static") := by
  refine ⟨?_, ?_, ?_, ?_⟩
  · intro hany
    cases hfind : files.find? pkgPred with
    | none =>
      obtain ⟨f, hmem, hpf⟩ := List.any_eq_true.mp hany
      exact absurd hpf (by simpa using (List.find?_eq_none.mp hfind) f hmem)
    | some f =>
      cases hp : Json.parse f.content with
      | none => simp [detectProjectCommands, hany, hfind, hp]
      | some pj =>
        cases hc : ["dev", "start", "preview"].find? (fun cmd => jsIndexTruthy (scriptsOf pj) cmd) with
        | none => simp [detectProjectCommands, hany, hfind, hp, hc]
        | some c => simp [detectProjectCommands, hany, hfind, hp, hc]
  · intro hty
    cases hany : files.any pkgPred with
    | true => rfl
    | false =>
      exfalso
      cases hhtml : files.any htmlPred with
      | true => simp [detectProjectCommands, hany, hhtml] at hty
      | false => simp [detectProjectCommands, hany, hhtml] at hty
  · intro f hf
    have hpf : pkgPred f = true := List.find?_some hf
    have hany : files.any pkgPred = true :=
      List.any_eq_true.mpr ⟨f, List.mem_of_find?_eq_some hf, hpf⟩
    have hany1 : [f].any pkgPred = true := by simp [hpf]
    have hf1 : [f].find? pkgPred = some f := by simp [List.find?, hpf]
    simp only [detectProjectCommands, hany, hf, hany1, hf1, if_true]
  · intro hP hH
    simp [detectProjectCommands, hP, hH]

/-- Claim C10, witness: `my-package.json` (a mere suffix match, first in list
order) is the file whose content decides the result, and a path ending in
`index.html` yields the `Static` branch. -/
theorem detectProjectCommands_suffix_dispatch_check :
    (detectProjectCommands [pkgJsonBad, pkgJsonNoScripts]).type = "Node.js" ∧
    detectProjectCommands [pkgJsonBad, pkgJsonNoScripts] = detectProjectCommands [pkgJsonBad] ∧
    (detectProjectCommands [textFile, htmlFile]).type = "Static" :=
  ⟨(detectProjectCommands_suffix_dispatch [pkgJsonBad, pkgJsonNoScripts]).1 (by rfl),
   (detectProjectCommands_suffix_dispatch [pkgJsonBad, pkgJsonNoScripts]).2.2.1 pkgJsonBad (by rfl),
   (detectProjectCommands_suffix_dispatch [textFile, htmlFile]).2.2.2 (by rfl) (by rfl)⟩
